import Mathlib

/-!
Shallow embedding of the incremental full-text indexing subsystem of rlm-cli
(`src/rlm_cli/context.py` and `src/rlm_cli/indexer.py`).

Modelling conventions:
* External libraries are abstracted at their call boundary:
  `hashlib.sha256(...).hexdigest()` becomes an explicit function parameter
  `sha256hex : String → String` (both uses in the source — hashing file content
  and hashing the root path — go through the same library call); `pathspec`
  pattern compilation becomes a parameter `build_spec : List String → String → Bool`;
  the tantivy query/search engine becomes a parameter at the interface the
  source calls (`engine : String → Nat → List (ℚ × IndexDoc)`, the parsed
  combined query string and the hit limit, returning score/document pairs).
  Engine relevance scores are floats in the source; only their ordering is ever
  used, so they are modelled as rationals.
* The filesystem walk (`os.walk`) is modelled by the list of candidate files it
  yields, in traversal order, after the in-place `dirnames` filtering; each
  candidate carries the outcomes of the fallible OS calls the per-file loop
  performs (`stat`, the binary-probe read, `read_text`).
* Python `dict` values with a fixed shape are modelled as structures; the
  per-root metadata `files` dict is an insertion-ordered association list with
  unique keys, and assignment replaces the first matching key in place.
-/

/-! String helpers. Python's `str` operations are modelled over the character
list `String.data` (Python compares and slices strings by code point, which is
exactly `List Char` here). -/

/-- Code-point lexicographic strict comparison, as Python `<` on `str`. -/
def chars_lt : List Char → List Char → Bool
  | [], [] => false
  | [], _ :: _ => true
  | _ :: _, [] => false
  | a :: as, b :: bs => if a < b then true else if b < a then false else chars_lt as bs

/-- Python `a < b` on strings. -/
def str_lt (a b : String) : Bool := chars_lt a.data b.data

/-- `sub` is an initial segment of `cs`. -/
def chars_init_seg : List Char → List Char → Bool
  | _, [] => true
  | [], _ :: _ => false
  | c :: cs, p :: ps => decide (c = p) && chars_init_seg cs ps

/-- Python `s.startswith(pre)`. -/
def str_starts_with (s pre : String) : Bool := chars_init_seg s.data pre.data

/-- Python `s.endswith(suf)`. -/
def str_ends_with (s suf : String) : Bool := chars_init_seg s.data.reverse suf.data.reverse

/-- Python `s.lower()` (the extensions handled here are ASCII). -/
def str_to_lower (s : String) : String := String.mk (s.data.map Char.toLower)

/-- Python `s[:n]`. -/
def str_take (s : String) (n : Nat) : String := String.mk (s.data.take n)

/-- Python `s.split(sep)` for a one-character separator, on character lists. -/
def split_on_char (c : Char) : List Char → List (List Char)
  | [] => [[]]
  | x :: rest =>
    let r := split_on_char c rest
    if x = c then [] :: r
    else
      match r with
      | [] => [[x]]
      | g :: gs => (x :: g) :: gs

/-- `errors.InputError(message, why=..., fix=...)`. -/
structure InputError where
  message : String
  why : String
  fix : String
deriving DecidableEq, Repr

/-- `context.WalkOptions` (context.py:34-46). -/
structure WalkOptions where
  extensions : Option (List String) := none
  include_globs : List String := []
  exclude_globs : List String := []
  respect_gitignore : Bool := true
  include_hidden : Bool := false
  follow_symlinks : Bool := false
  max_file_bytes : Option Nat := none
  max_total_bytes : Option Nat := none
  binary_policy : String := "skip"
  exclude_lockfiles : Bool := false
  encoding : String := "utf-8"
deriving Repr

/-- `context.FileEntry` (context.py:49-53); `path` is the POSIX-style relative
path string (`rel_path.as_posix()`). -/
structure FileEntry where
  path : String
  size : Nat
  content : String
deriving DecidableEq, Repr

/-- `context.WalkResult` (context.py:56-61). -/
structure WalkResult where
  files : List FileEntry := []
  warnings : List String := []
  truncated : Bool := false
  total_bytes : Nat := 0
deriving DecidableEq, Repr

/-- One file yielded by the `os.walk` traversal after directory filtering
(context.py:79-101): its POSIX relative path, its final filename component,
and the outcomes of the three fallible OS interactions the loop performs on
it — `stat` (context.py:116), the binary-probe read (context.py:323-327,
`none` = OSError, otherwise the first up-to-8192 bytes), and `read_text`
(context.py:148-151). -/
structure RawFile where
  relPath : String
  name : String
  stat : Except String Nat
  probe : Option (List Nat)
  readText : Except String String
deriving Repr

/-- `DEFAULT_EXCLUDE_FILES` (context.py:29-31). -/
def DEFAULT_EXCLUDE_FILES : List String := [".DS_Store"]

/-- `_normalize_extensions` (context.py:250-259): `None`/empty → `None`;
otherwise lower-case each extension and ensure a leading dot. The Python set
is modelled as a list queried by membership. -/
def normalize_extensions (extensions : Option (List String)) : Option (List String) :=
  match extensions with
  | none => none
  | some [] => none
  | some exts =>
      some (exts.map (fun ext =>
        let v := str_to_lower ext
        if str_starts_with v "." then v else "." ++ v))

/-- Final path component, as `pathlib.PurePath.name` for a relative file path. -/
def path_name (p : String) : String :=
  String.mk ((split_on_char '/' p.data).getLastD [])

/-- Index of the last occurrence of `c` in `cs`. -/
def rfind_idx (cs : List Char) (c : Char) : Option Nat :=
  match cs.reverse.findIdx? (fun x => x = c) with
  | some j => some (cs.length - 1 - j)
  | none => none

/-- `pathlib.PurePath.suffix`: the last dot-suffix of the final component,
or `""` when the last dot is at position `0` or at the very end. -/
def path_suffix (p : String) : String :=
  let name := path_name p
  match rfind_idx name.data '.' with
  | some i => if 0 < i ∧ i + 1 < name.data.length then String.mk (name.data.drop i) else ""
  | none => ""

/-- `pathlib.PurePath.stem`: the final component without `path_suffix`. -/
def path_stem (p : String) : String :=
  let name := path_name p
  match rfind_idx name.data '.' with
  | some i => if 0 < i ∧ i + 1 < name.data.length then String.mk (name.data.take i) else name
  | none => name

/-- `_should_skip_file` (context.py:295-320). The compiled `pathspec` matchers
are passed in as `Option` predicates (absent when no patterns were given). -/
def should_skip_file (relPath name : String) (include_hidden : Bool)
    (extensions : Option (List String))
    (include_spec exclude_spec gitignore_spec : Option (String → Bool))
    (exclude_lockfiles : Bool) : Bool :=
  if DEFAULT_EXCLUDE_FILES.contains name then true
  else if exclude_lockfiles && str_ends_with name ".lock" then true
  else if !include_hidden && str_starts_with name "." then true
  else if (match extensions with
           | some exts => !(exts.contains (str_to_lower (path_suffix relPath)))
           | none => false) then true
  else if (match include_spec with
           | some m => !(m relPath)
           | none => false) then true
  else if (match exclude_spec with
           | some m => m relPath
           | none => false) then true
  else if (match gitignore_spec with
           | some m => m relPath
           | none => false) then true
  else false

/-- `_is_binary` (context.py:323-334) on the probe outcome: OSError (`none`)
and an empty first chunk both report "not binary"; otherwise binary iff a NUL
byte is present or more than 30% of the chunk bytes are control characters.
The source compares the Python float `nontext / len(chunk) > 0.3`; for chunks
of at most 8192 bytes the comparison agrees with the exact rational
`nontext * 10 > len * 3` modelled here, since no fraction `n/d` with
`d ≤ 8192` other than `3/10` itself lies within double rounding error of 0.3. -/
def is_binary (probe : Option (List Nat)) : Bool :=
  match probe with
  | none => false
  | some [] => false
  | some chunk =>
      if chunk.contains 0 then true
      else
        let nontext := (chunk.filter (fun b => b < 9 || (13 < b && b < 32))).length
        decide (nontext * 10 > chunk.length * 3)

/-- The aggregate warning emitted when the total byte cap stops the walk
(context.py:130-132). -/
def total_limit_warning : String := "Total byte limit reached; remaining files skipped."

/-- `opts.max_file_bytes is not None and size > opts.max_file_bytes`
(context.py:121). -/
def exceeds_file_cap (max_file_bytes : Option Nat) (size : Nat) : Bool :=
  match max_file_bytes with
  | some m => decide (size > m)
  | none => false

/-- `opts.max_total_bytes is not None and result.total_bytes + size > opts.max_total_bytes`
(context.py:127-129). -/
def exceeds_total_cap (max_total_bytes : Option Nat) (total size : Nat) : Bool :=
  match max_total_bytes with
  | some m => decide (total + size > m)
  | none => false

/-- Rendering of the per-file size-cap value inside the warning f-string
(context.py:122-124); only reached when the cap is set. -/
def show_opt_nat : Option Nat → String
  | some m => toString m
  | none => "None"

/-- The walk context: options plus the matchers compiled once per call
(context.py:71-74). -/
structure WalkCtx where
  opts : WalkOptions
  extensions : Option (List String)
  include_spec : Option (String → Bool)
  exclude_spec : Option (String → Bool)
  gitignore_spec : Option (String → Bool)

/-- Builds the `WalkCtx` as `collect_directory` does before its loop
(context.py:69-74): normalized extensions, include/exclude specs only when
patterns were given (`_build_spec`, context.py:262-265), and the gitignore
spec only under `respect_gitignore` (the loaded root `.gitignore` lines, when
present and readable, are abstracted as `gitignore_file`). -/
def mk_walk_ctx (opts : WalkOptions) (build_spec : List String → String → Bool)
    (gitignore_file : Option (List String)) : WalkCtx :=
  { opts := opts
    extensions := normalize_extensions opts.extensions
    include_spec := if opts.include_globs.isEmpty then none else some (build_spec opts.include_globs)
    exclude_spec := if opts.exclude_globs.isEmpty then none else some (build_spec opts.exclude_globs)
    gitignore_spec := if opts.respect_gitignore then gitignore_file.map build_spec else none }

/-- The per-file loop of `collect_directory` (context.py:98-163), including
the early stop (`stop = True; break` breaks out of both loops, so the rest of
the traversal is never examined) and the binary-policy error path. -/
def walk_files (ctx : WalkCtx) : List RawFile → WalkResult → Except InputError WalkResult
  | [], acc => .ok acc
  | f :: rest, acc =>
    if should_skip_file f.relPath f.name ctx.opts.include_hidden ctx.extensions
        ctx.include_spec ctx.exclude_spec ctx.gitignore_spec ctx.opts.exclude_lockfiles then
      walk_files ctx rest acc
    else
      match f.stat with
      | .error e =>
          walk_files ctx rest
            { acc with warnings := acc.warnings ++ ["Failed to stat " ++ f.relPath ++ ": " ++ e] }
      | .ok size =>
        if exceeds_file_cap ctx.opts.max_file_bytes size then
          walk_files ctx rest
            { acc with warnings := acc.warnings ++
                ["Skipping " ++ f.relPath ++ " (size " ++ toString size ++ " > max "
                  ++ show_opt_nat ctx.opts.max_file_bytes ++ ")"] }
        else if exceeds_total_cap ctx.opts.max_total_bytes acc.total_bytes size then
          .ok { acc with
                warnings := acc.warnings ++ [total_limit_warning]
                truncated := true }
        else if is_binary f.probe then
          if ctx.opts.binary_policy = "error" then
            .error { message := "Binary file detected."
                     why := "'" ++ f.relPath ++ "' appears to be binary."
                     fix := "Remove the file or adjust binary handling." }
          else
            walk_files ctx rest
              { acc with warnings := acc.warnings ++ ["Skipping binary file " ++ f.relPath ++ "."] }
        else
          match f.readText with
          | .error e =>
              walk_files ctx rest
                { acc with warnings := acc.warnings ++ ["Failed to read " ++ f.relPath ++ ": " ++ e] }
          | .ok content =>
              walk_files ctx rest
                { acc with
                  files := acc.files ++ [{ path := f.relPath, size := size, content := content }]
                  total_bytes := acc.total_bytes + size }

/-- Stable insertion into a path-sorted list: the new entry goes after every
entry whose path is not greater. -/
def insert_by_path (e : FileEntry) : List FileEntry → List FileEntry
  | [] => [e]
  | f :: rest => if str_lt e.path f.path then e :: f :: rest else f :: insert_by_path e rest

/-- `result.files.sort(key=lambda entry: entry.path.as_posix())`
(context.py:165): Python's stable comparison sort by the POSIX path key,
modelled as stable insertion sort (on key-distinct lists — relative paths are
unique within one walk — every comparison sort by the same key agrees). -/
def sort_by_path : List FileEntry → List FileEntry
  | [] => []
  | f :: rest => insert_by_path f (sort_by_path rest)

/-- `collect_directory` (context.py:64-166): run the per-file loop over the
traversal and sort the surviving entries by POSIX relative path. -/
def collect_directory (build_spec : List String → String → Bool)
    (gitignore_file : Option (List String)) (raw : List RawFile)
    (opts : WalkOptions) : Except InputError WalkResult :=
  (walk_files (mk_walk_ctx opts build_spec gitignore_file) raw {}).map
    (fun acc => { acc with files := sort_by_path acc.files })

/-- Sum of `entry.size` over a file list. -/
def sum_sizes (files : List FileEntry) : Nat := (files.map FileEntry.size).sum

/-- `_language_from_path` (indexer.py:292-315). -/
def language_from_path (p : String) : String :=
  let ext := String.mk ((str_to_lower (path_suffix p)).data.dropWhile (fun c => c = '.'))
  if ext = "" then "text"
  else if ext = "py" then "python"
  else if ext = "js" then "javascript"
  else if ext = "ts" then "typescript"
  else if ext = "jsx" then "javascript"
  else if ext = "tsx" then "typescript"
  else if ext = "json" then "json"
  else if ext = "yml" then "yaml"
  else if ext = "yaml" then "yaml"
  else if ext = "toml" then "toml"
  else if ext = "md" then "markdown"
  else if ext = "rst" then "rst"
  else if ext = "go" then "go"
  else if ext = "rs" then "rust"
  else if ext = "java" then "java"
  else if ext = "c" then "c"
  else if ext = "cpp" then "cpp"
  else if ext = "h" then "c"
  else ext

/-- `f"doc-{indexed_count + 1:04d}"` (indexer.py:177): `doc-` followed by the
decimal rendering zero-padded to width 4. -/
def format_doc_id (n : Nat) : String :=
  let s := toString n
  "doc-" ++ String.mk (List.replicate (4 - s.length) '0') ++ s

/-- One metadata entry: `{"sha256": ..., "indexed_at": ...}` (indexer.py:187-190). -/
structure FileMeta where
  sha256 : String
  indexed_at : String
deriving DecidableEq, Repr

/-- The persisted metadata object `{"root": ..., "files": {...}}`
(indexer.py:282-283); `files` is an insertion-ordered association list with
unique keys, as a Python dict. -/
structure Metadata where
  root : String
  files : List (String × FileMeta)
deriving DecidableEq, Repr

/-- Python `path_str in files` / `files[path_str]`: first (and on dicts,
only) binding for the key. -/
def lookup_meta : List (String × FileMeta) → String → Option FileMeta
  | [], _ => none
  | (k, v) :: rest, p => if k = p then some v else lookup_meta rest p

/-- Python dict assignment `files[path_str] = entry`: replace the first
binding for the key in place, or append a new binding. -/
def update_meta : List (String × FileMeta) → String → FileMeta → List (String × FileMeta)
  | [], k, v => [(k, v)]
  | (k', v') :: rest, k, v =>
      if k' = k then (k, v) :: rest else (k', v') :: update_meta rest k v

/-- On-disk state of the `rlm_metadata.json` file when a build starts:
absent, unreadable (OSError), syntactically invalid JSON, or a valid saved
metadata object. -/
inductive MetaFileState where
  | absent
  | unreadable
  | invalidJson
  | valid (m : Metadata)
deriving DecidableEq, Repr

/-- `_load_metadata` (indexer.py:275-283): a valid file parses to its object;
absence, OSError and JSONDecodeError all yield `{"root": str(root), "files": {}}`. -/
def load_metadata (root : String) (st : MetaFileState) : Metadata :=
  match st with
  | .valid m => m
  | .absent => { root := root, files := [] }
  | .unreadable => { root := root, files := [] }
  | .invalidJson => { root := root, files := [] }

/-- The metadata filename used by `_load_metadata`/`_save_metadata`
(indexer.py:277, 287). -/
def metadata_file_name : String := "rlm_metadata.json"

/-- The full path of the metadata file inside an index directory. -/
def metadata_path (index_path : String) : String := index_path ++ "/" ++ metadata_file_name

/-- `_get_index_path` (indexer.py:75-78): `config.index_dir` joined with the
first 16 hex characters of the SHA-256 of the resolved absolute root path
(`root` here stands for `str(root.resolve())`). -/
def get_index_path (sha256hex : String → String) (index_dir root : String) : String :=
  index_dir ++ "/" ++ str_take (sha256hex root) 16

/-- One document as written by `writer.add_document` (indexer.py:171-181). -/
structure IndexDoc where
  path : String
  path_stem : String
  content : String
  language : String
  doc_id : String
  sha256 : String
  bytes_size : Nat
deriving DecidableEq, Repr

/-- `IndexResult` (indexer.py:64-72); `index_path` modelled as the path string. -/
structure IndexResult where
  indexed_count : Nat
  skipped_count : Nat
  total_bytes : Nat
  warnings : List String
  index_path : String
deriving DecidableEq, Repr

/-- The committed on-disk state of one root's index: the stored documents and
the state of its metadata file. -/
structure IndexState where
  docs : List IndexDoc
  metaFile : MetaFileState
deriving Repr

/-- `clear` (indexer.py:261-268): the index directory — documents and
metadata file alike — is removed wholesale and in-memory handles reset. -/
def clear_state : IndexState := { docs := [], metaFile := .absent }

/-- Running state of the loop at indexer.py:160-190. -/
structure IndexLoopState where
  indexed_count : Nat
  skipped_count : Nat
  metadata : Metadata
  newDocs : List IndexDoc
deriving Repr

/-- The per-file loop of `index_directory` (indexer.py:160-190): skip a file
when not forcing and the stored hash for its path equals the fresh SHA-256 of
its content, otherwise build the document and record the new hash and
timestamp in the in-memory metadata. -/
def index_loop (sha256hex : String → String) (now : String) (force : Bool) :
    List FileEntry → IndexLoopState → IndexLoopState
  | [], s => s
  | fe :: rest, s =>
    let path_str := fe.path
    let sha256 := sha256hex fe.content
    if !force && (match lookup_meta s.metadata.files path_str with
                  | some fm => decide (fm.sha256 = sha256)
                  | none => false) then
      index_loop sha256hex now force rest { s with skipped_count := s.skipped_count + 1 }
    else
      let doc : IndexDoc :=
        { path := path_str
          path_stem := path_stem path_str
          content := fe.content
          language := language_from_path path_str
          doc_id := format_doc_id (s.indexed_count + 1)
          sha256 := sha256
          bytes_size := fe.size }
      index_loop sha256hex now force rest
        { indexed_count := s.indexed_count + 1
          skipped_count := s.skipped_count
          metadata := { s.metadata with
                        files := update_meta s.metadata.files path_str
                          { sha256 := sha256, indexed_at := now } }
          newDocs := s.newDocs ++ [doc] }

/-- `index_directory` (indexer.py:132-201) over the already-collected walk
result (`collect_directory(self.root, options=options)`, indexer.py:153):
clear first when forcing, load metadata, run the loop, commit the new
documents, persist the metadata; `now` is the `_timestamp()` value of this
call, `root` the resolved absolute root path. -/
def index_directory (sha256hex : String → String) (now index_dir root : String)
    (force : Bool) (walk : WalkResult) (st : IndexState) : IndexResult × IndexState :=
  let st1 := if force then clear_state else st
  let metadata := load_metadata root st1.metaFile
  let fin := index_loop sha256hex now force walk.files
    { indexed_count := 0, skipped_count := 0, metadata := metadata, newDocs := [] }
  ({ indexed_count := fin.indexed_count
     skipped_count := fin.skipped_count
     total_bytes := walk.total_bytes
     warnings := walk.warnings
     index_path := get_index_path sha256hex index_dir root },
   { docs := st1.docs ++ fin.newDocs, metaFile := .valid fin.metadata })

/-- `SearchResult` (indexer.py:51-61); the float relevance score is modelled
as a rational (only its ordering is used). -/
structure SearchResult where
  path : String
  score : ℚ
  language : String
  doc_id : String
  sha256 : String
  bytes_size : Nat
  snippet : Option String
deriving DecidableEq, Repr

/-- The query-part construction of `search` (indexer.py:224-233): one
`field:query^boost` part per configured boost on a searchable field, in boost
map order. Boost weights only ever appear through f-string interpolation, so
they are carried as their rendered text. -/
def query_parts (query : String) (boosts : List (String × String)) : List String :=
  boosts.foldl
    (fun acc p =>
      if p.1 = "content" then acc ++ ["content:" ++ query ++ "^" ++ p.2]
      else if p.1 = "path" then acc ++ ["path:" ++ query ++ "^" ++ p.2]
      else if p.1 = "path_stem" then acc ++ ["path_stem:" ++ query ++ "^" ++ p.2]
      else acc)
    []

/-- `" OR ".join(query_parts)` (indexer.py:234). -/
def combined_query (query : String) (boosts : List (String × String)) : String :=
  String.intercalate " OR " (query_parts query boosts)

/-- The language post-filter of `search` (indexer.py:244-246): a hit is kept
unless a truthy (non-empty) language filter is present and differs from the
document's stored language. -/
def lang_filter_keep (language : Option String) (doc_language : String) : Bool :=
  match language with
  | none => true
  | some l => if l = "" then true else decide (doc_language = l)

/-- Builds one `SearchResult` from a scored hit (indexer.py:248-257). -/
def mk_search_result (hit : ℚ × IndexDoc) : SearchResult :=
  { path := hit.2.path
    score := hit.1
    language := hit.2.language
    doc_id := hit.2.doc_id
    sha256 := hit.2.sha256
    bytes_size := hit.2.bytes_size
    snippet := none }

/-- The same walk context with the total byte cap removed (proof scaffolding
for comparing a capped walk with its uncapped counterpart). -/
def decap_ctx (ctx : WalkCtx) : WalkCtx :=
  { ctx with opts := { ctx.opts with max_total_bytes := none } }

/-- `search` (indexer.py:203-259): build the boosted combined query, obtain
the engine's scored hits for it under the requested limit
(`searcher.search(parsed_query, limit).hits`, abstracted as `engine`), apply
the language post-filter to those hits in order, and package the survivors. -/
def rlm_search (engine : String → Nat → List (ℚ × IndexDoc))
    (boosts : List (String × String)) (query : String) (limit : Nat)
    (language : Option String) : List SearchResult :=
  ((engine (combined_query query boosts) limit).filter
      (fun hit => lang_filter_keep language hit.2.language)).map mk_search_result


/-! Helper lemmas. -/

theorem chars_lt_iff : ∀ as bs : List Char, chars_lt as bs = true ↔ List.Lex (· < ·) as bs
  | [], [] => by
    simp only [chars_lt]
    constructor
    · intro h; exact absurd h (by simp)
    · intro h; cases h
  | [], b :: bs => by
    simp only [chars_lt]
    exact iff_of_true trivial List.Lex.nil
  | a :: as, [] => by
    simp only [chars_lt]
    constructor
    · intro h; exact absurd h (by simp)
    · intro h; cases h
  | a :: as, b :: bs => by
    simp only [chars_lt]
    by_cases hab : a < b
    · simp only [if_pos hab]
      exact iff_of_true trivial (List.Lex.rel hab)
    · simp only [if_neg hab]
      by_cases hba : b < a
      · simp only [if_pos hba]
        constructor
        · intro h; exact absurd h (by simp)
        · intro h
          cases h with
          | cons _ => exact absurd hba (lt_irrefl a)
          | rel h1 => exact absurd h1 hab
      · simp only [if_neg hba]
        have heq : a = b := le_antisymm (le_of_not_lt hba) (le_of_not_lt hab)
        subst heq
        rw [chars_lt_iff as bs]
        constructor
        · intro h; exact List.Lex.cons h
        · intro h
          cases h with
          | cons h3 => exact h3
          | rel h1 => exact absurd h1 hab

theorem str_lt_iff (a b : String) : str_lt a b = true ↔ a < b := by
  rw [String.lt_iff_toList_lt]
  exact chars_lt_iff a.data b.data

theorem insert_by_path_perm (e : FileEntry) :
    ∀ l : List FileEntry, List.Perm (insert_by_path e l) (e :: l)
  | [] => List.Perm.refl _
  | f :: rest => by
    simp only [insert_by_path]
    by_cases h : str_lt e.path f.path = true
    · simp only [if_pos h]
      exact List.Perm.refl _
    · simp only [if_neg h]
      exact ((insert_by_path_perm e rest).cons f).trans (List.Perm.swap e f rest)

theorem sort_by_path_perm : ∀ l : List FileEntry, List.Perm (sort_by_path l) l
  | [] => List.Perm.refl _
  | f :: rest => by
    simp only [sort_by_path]
    exact (insert_by_path_perm f (sort_by_path rest)).trans ((sort_by_path_perm rest).cons f)

theorem insert_by_path_pairwise (e : FileEntry) :
    ∀ l : List FileEntry, l.Pairwise (fun a b => a.path ≤ b.path) →
      (insert_by_path e l).Pairwise (fun a b => a.path ≤ b.path)
  | [], _ => by simp [insert_by_path]
  | f :: rest, h => by
    simp only [insert_by_path]
    rcases List.pairwise_cons.mp h with ⟨hf, hrest⟩
    by_cases hef : str_lt e.path f.path = true
    · simp only [if_pos hef]
      have helt : e.path < f.path := (str_lt_iff _ _).mp hef
      refine List.pairwise_cons.mpr ⟨?_, h⟩
      intro x hx
      rcases List.mem_cons.mp hx with rfl | hx
      · exact le_of_lt helt
      · exact le_trans (le_of_lt helt) (hf x hx)
    · simp only [if_neg hef]
      have hfe : f.path ≤ e.path := by
        have hne : ¬ e.path < f.path := by
          intro hc
          exact hef ((str_lt_iff _ _).mpr hc)
        exact le_of_not_lt hne
      refine List.pairwise_cons.mpr ⟨?_, insert_by_path_pairwise e rest hrest⟩
      intro x hx
      have hx' : x ∈ e :: rest := (insert_by_path_perm e rest).mem_iff.mp hx
      rcases List.mem_cons.mp hx' with rfl | hx'
      · exact hfe
      · exact hf x hx'

theorem sort_by_path_sorted : ∀ l : List FileEntry,
    (sort_by_path l).Pairwise (fun a b => a.path ≤ b.path)
  | [] => by simp [sort_by_path]
  | f :: rest => insert_by_path_pairwise f _ (sort_by_path_sorted rest)

theorem lookup_update_self : ∀ (l : List (String × FileMeta)) (k : String) (v : FileMeta),
    lookup_meta (update_meta l k v) k = some v
  | [], k, v => by simp [update_meta, lookup_meta]
  | (k', v') :: rest, k, v => by
    simp only [update_meta]
    by_cases h : k' = k
    · simp [if_pos h, lookup_meta]
    · simp only [if_neg h, lookup_meta, if_neg h]
      exact lookup_update_self rest k v

theorem lookup_update_ne : ∀ (l : List (String × FileMeta)) (k : String) (v : FileMeta)
    (p : String), p ≠ k → lookup_meta (update_meta l k v) p = lookup_meta l p
  | [], k, v, p, hp => by
    simp only [update_meta, lookup_meta]
    rw [if_neg (fun h => hp h.symm)]
  | (k', v') :: rest, k, v, p, hp => by
    simp only [update_meta]
    by_cases h : k' = k
    · subst h
      simp only [lookup_meta]
      rw [if_neg (fun h => hp h.symm), if_neg (fun h => hp h.symm)]
    · simp only [if_neg h, lookup_meta]
      by_cases hkp : k' = p
      · simp [if_pos hkp]
      · simp only [if_neg hkp]
        exact lookup_update_ne rest k v p hp

theorem index_loop_lookup_not_mem (sha256hex : String → String) (now : String) (force : Bool) :
    ∀ (files : List FileEntry) (s : IndexLoopState) (p : String),
      p ∉ files.map FileEntry.path →
      lookup_meta (index_loop sha256hex now force files s).metadata.files p
        = lookup_meta s.metadata.files p
  | [], _, _, _ => rfl
  | fe :: rest, s, p, hp => by
    simp only [List.map_cons, List.mem_cons, not_or] at hp
    obtain ⟨hne, hrest⟩ := hp
    simp only [index_loop]
    by_cases hc : (!force && (match lookup_meta s.metadata.files fe.path with
                  | some fm => decide (fm.sha256 = sha256hex fe.content)
                  | none => false)) = true
    · rw [if_pos hc]
      exact index_loop_lookup_not_mem sha256hex now force rest _ p hrest
    · rw [if_neg hc]
      rw [index_loop_lookup_not_mem sha256hex now force rest _ p hrest]
      exact lookup_update_ne _ _ _ p hne

theorem index_loop_records (sha256hex : String → String) (now : String) :
    ∀ (files : List FileEntry) (s : IndexLoopState),
      (files.map FileEntry.path).Nodup →
      ∀ fe ∈ files, ∃ t,
        lookup_meta (index_loop sha256hex now false files s).metadata.files fe.path
          = some { sha256 := sha256hex fe.content, indexed_at := t }
  | [], _, _, fe, hfe => absurd hfe (List.not_mem_nil fe)
  | fe :: rest, s, hnodup, g, hg => by
    simp only [List.map_cons, List.nodup_cons] at hnodup
    obtain ⟨hfe_not, hrest_nodup⟩ := hnodup
    simp only [index_loop]
    by_cases hc : (!false && (match lookup_meta s.metadata.files fe.path with
                  | some fm => decide (fm.sha256 = sha256hex fe.content)
                  | none => false)) = true
    · rw [if_pos hc]
      rcases List.mem_cons.mp hg with rfl | hg'
      · rw [index_loop_lookup_not_mem sha256hex now false rest _ g.path hfe_not]
        simp only [Bool.not_false, Bool.true_and] at hc
        match hm : lookup_meta s.metadata.files g.path with
        | some fm =>
          rw [hm] at hc
          have hsha : fm.sha256 = sha256hex g.content := of_decide_eq_true hc
          exact ⟨fm.indexed_at, by rw [← hsha]⟩
        | none => rw [hm] at hc; exact absurd hc (by simp)
      · exact index_loop_records sha256hex now rest _ hrest_nodup g hg'
    · rw [if_neg hc]
      rcases List.mem_cons.mp hg with rfl | hg'
      · rw [index_loop_lookup_not_mem sha256hex now false rest _ g.path hfe_not]
        exact ⟨now, lookup_update_self _ _ _⟩
      · exact index_loop_records sha256hex now rest _ hrest_nodup g hg'

theorem index_loop_all_skipped (sha256hex : String → String) (now : String) :
    ∀ (files : List FileEntry) (s : IndexLoopState),
      (∀ fe ∈ files, ∃ t, lookup_meta s.metadata.files fe.path
        = some { sha256 := sha256hex fe.content, indexed_at := t }) →
      index_loop sha256hex now false files s
        = { indexed_count := s.indexed_count, skipped_count := s.skipped_count + files.length,
            metadata := s.metadata, newDocs := s.newDocs }
  | [], s, _ => rfl
  | fe :: rest, s, h => by
    obtain ⟨t, ht⟩ := h fe (List.mem_cons_self fe rest)
    simp only [index_loop]
    have hc : (!false && (match lookup_meta s.metadata.files fe.path with
                  | some fm => decide (fm.sha256 = sha256hex fe.content)
                  | none => false)) = true := by
      rw [ht]; simp
    rw [if_pos hc]
    rw [index_loop_all_skipped sha256hex now rest
        { indexed_count := s.indexed_count, skipped_count := s.skipped_count + 1,
          metadata := s.metadata, newDocs := s.newDocs }
        (fun g hg => h g (List.mem_cons_of_mem fe hg))]
    simp only [List.length_cons]
    congr 1
    omega

theorem index_loop_force_indexed (sha256hex : String → String) (now : String) :
    ∀ (files : List FileEntry) (s : IndexLoopState),
      (index_loop sha256hex now true files s).indexed_count = s.indexed_count + files.length
  | [], s => rfl
  | fe :: rest, s => by
    have hc : ¬ ((!true && (match lookup_meta s.metadata.files fe.path with
                  | some fm => decide (fm.sha256 = sha256hex fe.content)
                  | none => false)) = true) := by simp
    simp only [index_loop]
    rw [if_neg hc]
    rw [index_loop_force_indexed sha256hex now rest]
    show s.indexed_count + 1 + rest.length = s.indexed_count + (fe :: rest).length
    simp only [List.length_cons]
    omega

theorem index_loop_force_skipped (sha256hex : String → String) (now : String) :
    ∀ (files : List FileEntry) (s : IndexLoopState),
      (index_loop sha256hex now true files s).skipped_count = s.skipped_count
  | [], s => rfl
  | fe :: rest, s => by
    have hc : ¬ ((!true && (match lookup_meta s.metadata.files fe.path with
                  | some fm => decide (fm.sha256 = sha256hex fe.content)
                  | none => false)) = true) := by simp
    simp only [index_loop]
    rw [if_neg hc]
    rw [index_loop_force_skipped sha256hex now rest]

theorem sum_sizes_append (l : List FileEntry) (e : FileEntry) :
    sum_sizes (l ++ [e]) = sum_sizes l + e.size := by
  simp [sum_sizes]

theorem sum_sizes_perm {l₁ l₂ : List FileEntry} (h : List.Perm l₁ l₂) :
    sum_sizes l₁ = sum_sizes l₂ :=
  (h.map FileEntry.size).sum_eq

theorem walk_files_extend (ctx : WalkCtx) (raw : List RawFile) (acc : WalkResult) :
    ∀ res : WalkResult, walk_files ctx raw acc = Except.ok res →
      ∃ t, res.files = acc.files ++ t := by
  induction raw, acc using walk_files.induct ctx with
  | case1 acc =>
    intro res h
    simp only [walk_files, Except.ok.injEq] at h
    exact ⟨[], by rw [← h]; simp⟩
  | case2 f rest acc hskip ih =>
    intro res h
    simp only [walk_files] at h
    rw [if_pos hskip] at h
    exact ih res h
  | case3 f rest acc hns e hstat ih =>
    intro res h
    simp only [walk_files] at h
    rw [if_neg hns] at h
    simp only [hstat] at h
    exact ih res h
  | case4 f rest acc hns size hstat hfc ih =>
    intro res h
    simp only [walk_files] at h
    rw [if_neg hns] at h
    simp only [hstat] at h
    rw [if_pos hfc] at h
    exact ih res h
  | case5 f rest acc hns size hstat hnfc htc =>
    intro res h
    simp only [walk_files] at h
    rw [if_neg hns] at h
    simp only [hstat] at h
    rw [if_neg hnfc, if_pos htc] at h
    simp only [Except.ok.injEq] at h
    exact ⟨[], by rw [← h]; simp⟩
  | case6 f rest acc hns size hstat hnfc hntc hbin hpol =>
    intro res h
    simp only [walk_files] at h
    rw [if_neg hns] at h
    simp only [hstat] at h
    rw [if_neg hnfc, if_neg hntc, if_pos hbin, if_pos hpol] at h
    exact absurd h (by simp)
  | case7 f rest acc hns size hstat hnfc hntc hbin hnpol ih =>
    intro res h
    simp only [walk_files] at h
    rw [if_neg hns] at h
    simp only [hstat] at h
    rw [if_neg hnfc, if_neg hntc, if_pos hbin, if_neg hnpol] at h
    exact ih res h
  | case8 f rest acc hns size hstat hnfc hntc hnbin e hread ih =>
    intro res h
    simp only [walk_files] at h
    rw [if_neg hns] at h
    simp only [hstat] at h
    rw [if_neg hnfc, if_neg hntc, if_neg hnbin] at h
    simp only [hread] at h
    exact ih res h
  | case9 f rest acc hns size hstat hnfc hntc hnbin content hread ih =>
    intro res h
    simp only [walk_files] at h
    rw [if_neg hns] at h
    simp only [hstat] at h
    rw [if_neg hnfc, if_neg hntc, if_neg hnbin] at h
    simp only [hread] at h
    obtain ⟨t, ht⟩ := ih res h
    refine ⟨{ path := f.relPath, size := size, content := content } :: t, ?_⟩
    simp [ht]

theorem walk_files_total_inv (ctx : WalkCtx) (B : Nat) (hB : ctx.opts.max_total_bytes = some B)
    (raw : List RawFile) (acc : WalkResult) :
    ∀ res : WalkResult, walk_files ctx raw acc = Except.ok res →
      acc.total_bytes = sum_sizes acc.files → acc.total_bytes ≤ B →
      res.total_bytes = sum_sizes res.files ∧ res.total_bytes ≤ B := by
  induction raw, acc using walk_files.induct ctx with
  | case1 acc =>
    intro res h h1 h2
    simp only [walk_files, Except.ok.injEq] at h
    rw [← h]
    exact ⟨h1, h2⟩
  | case2 f rest acc hskip ih =>
    intro res h h1 h2
    simp only [walk_files] at h
    rw [if_pos hskip] at h
    exact ih res h h1 h2
  | case3 f rest acc hns e hstat ih =>
    intro res h h1 h2
    simp only [walk_files] at h
    rw [if_neg hns] at h
    simp only [hstat] at h
    exact ih res h h1 h2
  | case4 f rest acc hns size hstat hfc ih =>
    intro res h h1 h2
    simp only [walk_files] at h
    rw [if_neg hns] at h
    simp only [hstat] at h
    rw [if_pos hfc] at h
    exact ih res h h1 h2
  | case5 f rest acc hns size hstat hnfc htc =>
    intro res h h1 h2
    simp only [walk_files] at h
    rw [if_neg hns] at h
    simp only [hstat] at h
    rw [if_neg hnfc, if_pos htc] at h
    simp only [Except.ok.injEq] at h
    rw [← h]
    exact ⟨h1, h2⟩
  | case6 f rest acc hns size hstat hnfc hntc hbin hpol =>
    intro res h h1 h2
    simp only [walk_files] at h
    rw [if_neg hns] at h
    simp only [hstat] at h
    rw [if_neg hnfc, if_neg hntc, if_pos hbin, if_pos hpol] at h
    exact absurd h (by simp)
  | case7 f rest acc hns size hstat hnfc hntc hbin hnpol ih =>
    intro res h h1 h2
    simp only [walk_files] at h
    rw [if_neg hns] at h
    simp only [hstat] at h
    rw [if_neg hnfc, if_neg hntc, if_pos hbin, if_neg hnpol] at h
    exact ih res h h1 h2
  | case8 f rest acc hns size hstat hnfc hntc hnbin e hread ih =>
    intro res h h1 h2
    simp only [walk_files] at h
    rw [if_neg hns] at h
    simp only [hstat] at h
    rw [if_neg hnfc, if_neg hntc, if_neg hnbin] at h
    simp only [hread] at h
    exact ih res h h1 h2
  | case9 f rest acc hns size hstat hnfc hntc hnbin content hread ih =>
    intro res h h1 h2
    simp only [walk_files] at h
    rw [if_neg hns] at h
    simp only [hstat] at h
    rw [if_neg hnfc, if_neg hntc, if_neg hnbin] at h
    simp only [hread] at h
    rw [hB] at hntc
    simp only [exceeds_total_cap, decide_eq_true_eq, Nat.not_lt] at hntc
    refine ih res h ?_ ?_
    · show acc.total_bytes + size = sum_sizes (acc.files ++ [_])
      rw [sum_sizes_append, ← h1]
    · show acc.total_bytes + size ≤ B
      omega

theorem walk_files_trunc_warning (ctx : WalkCtx) (raw : List RawFile) (acc : WalkResult) :
    ∀ res : WalkResult, walk_files ctx raw acc = Except.ok res → res.truncated = true →
      acc.truncated = true ∨ total_limit_warning ∈ res.warnings := by
  induction raw, acc using walk_files.induct ctx with
  | case1 acc =>
    intro res h ht
    simp only [walk_files, Except.ok.injEq] at h
    rw [← h] at ht
    exact Or.inl ht
  | case2 f rest acc hskip ih =>
    intro res h ht
    simp only [walk_files] at h
    rw [if_pos hskip] at h
    exact ih res h ht
  | case3 f rest acc hns e hstat ih =>
    intro res h ht
    simp only [walk_files] at h
    rw [if_neg hns] at h
    simp only [hstat] at h
    exact ih res h ht
  | case4 f rest acc hns size hstat hfc ih =>
    intro res h ht
    simp only [walk_files] at h
    rw [if_neg hns] at h
    simp only [hstat] at h
    rw [if_pos hfc] at h
    exact ih res h ht
  | case5 f rest acc hns size hstat hnfc htc =>
    intro res h ht
    simp only [walk_files] at h
    rw [if_neg hns] at h
    simp only [hstat] at h
    rw [if_neg hnfc, if_pos htc] at h
    simp only [Except.ok.injEq] at h
    rw [← h]
    exact Or.inr (by simp)
  | case6 f rest acc hns size hstat hnfc hntc hbin hpol =>
    intro res h ht
    simp only [walk_files] at h
    rw [if_neg hns] at h
    simp only [hstat] at h
    rw [if_neg hnfc, if_neg hntc, if_pos hbin, if_pos hpol] at h
    exact absurd h (by simp)
  | case7 f rest acc hns size hstat hnfc hntc hbin hnpol ih =>
    intro res h ht
    simp only [walk_files] at h
    rw [if_neg hns] at h
    simp only [hstat] at h
    rw [if_neg hnfc, if_neg hntc, if_pos hbin, if_neg hnpol] at h
    exact ih res h ht
  | case8 f rest acc hns size hstat hnfc hntc hnbin e hread ih =>
    intro res h ht
    simp only [walk_files] at h
    rw [if_neg hns] at h
    simp only [hstat] at h
    rw [if_neg hnfc, if_neg hntc, if_neg hnbin] at h
    simp only [hread] at h
    exact ih res h ht
  | case9 f rest acc hns size hstat hnfc hntc hnbin content hread ih =>
    intro res h ht
    simp only [walk_files] at h
    rw [if_neg hns] at h
    simp only [hstat] at h
    rw [if_neg hnfc, if_neg hntc, if_neg hnbin] at h
    simp only [hread] at h
    exact ih res h ht

theorem decap_include_hidden (ctx : WalkCtx) :
    (decap_ctx ctx).opts.include_hidden = ctx.opts.include_hidden := rfl

theorem decap_exclude_lockfiles (ctx : WalkCtx) :
    (decap_ctx ctx).opts.exclude_lockfiles = ctx.opts.exclude_lockfiles := rfl

theorem decap_max_file_bytes (ctx : WalkCtx) :
    (decap_ctx ctx).opts.max_file_bytes = ctx.opts.max_file_bytes := rfl

theorem decap_binary_policy (ctx : WalkCtx) :
    (decap_ctx ctx).opts.binary_policy = ctx.opts.binary_policy := rfl

theorem decap_extensions (ctx : WalkCtx) :
    (decap_ctx ctx).extensions = ctx.extensions := rfl

theorem decap_include_spec (ctx : WalkCtx) :
    (decap_ctx ctx).include_spec = ctx.include_spec := rfl

theorem decap_exclude_spec (ctx : WalkCtx) :
    (decap_ctx ctx).exclude_spec = ctx.exclude_spec := rfl

theorem decap_gitignore_spec (ctx : WalkCtx) :
    (decap_ctx ctx).gitignore_spec = ctx.gitignore_spec := rfl

theorem decap_max_total_bytes (ctx : WalkCtx) :
    (decap_ctx ctx).opts.max_total_bytes = none := rfl

theorem exceeds_total_cap_none (total size : Nat) :
    exceeds_total_cap none total size = false := rfl

theorem walk_files_decap (ctx : WalkCtx) (raw : List RawFile) (acc : WalkResult) :
    ∀ res : WalkResult, walk_files ctx raw acc = Except.ok res →
      res.truncated = false → acc.truncated = false →
      walk_files (decap_ctx ctx) raw acc = Except.ok res := by
  induction raw, acc using walk_files.induct ctx with
  | case1 acc =>
    intro res h _ _
    exact h
  | case2 f rest acc hskip ih =>
    intro res h hres hacc
    simp only [walk_files] at h ⊢
    simp only [decap_include_hidden, decap_extensions, decap_include_spec, decap_exclude_spec,
      decap_gitignore_spec, decap_exclude_lockfiles]
    rw [if_pos hskip] at h ⊢
    exact ih res h hres hacc
  | case3 f rest acc hns e hstat ih =>
    intro res h hres hacc
    simp only [walk_files] at h ⊢
    simp only [decap_include_hidden, decap_extensions, decap_include_spec, decap_exclude_spec,
      decap_gitignore_spec, decap_exclude_lockfiles]
    rw [if_neg hns] at h ⊢
    simp only [hstat] at h ⊢
    exact ih res h hres hacc
  | case4 f rest acc hns size hstat hfc ih =>
    intro res h hres hacc
    simp only [walk_files] at h ⊢
    simp only [decap_include_hidden, decap_extensions, decap_include_spec, decap_exclude_spec,
      decap_gitignore_spec, decap_exclude_lockfiles, decap_max_file_bytes]
    rw [if_neg hns] at h ⊢
    simp only [hstat] at h ⊢
    rw [if_pos hfc] at h ⊢
    exact ih res h hres hacc
  | case5 f rest acc hns size hstat hnfc htc =>
    intro res h hres hacc
    simp only [walk_files] at h
    rw [if_neg hns] at h
    simp only [hstat] at h
    rw [if_neg hnfc, if_pos htc] at h
    simp only [Except.ok.injEq] at h
    rw [← h] at hres
    simp at hres
  | case6 f rest acc hns size hstat hnfc hntc hbin hpol =>
    intro res h hres hacc
    simp only [walk_files] at h
    rw [if_neg hns] at h
    simp only [hstat] at h
    rw [if_neg hnfc, if_neg hntc, if_pos hbin, if_pos hpol] at h
    exact absurd h (by simp)
  | case7 f rest acc hns size hstat hnfc hntc hbin hnpol ih =>
    intro res h hres hacc
    simp only [walk_files] at h ⊢
    simp only [decap_include_hidden, decap_extensions, decap_include_spec, decap_exclude_spec,
      decap_gitignore_spec, decap_exclude_lockfiles, decap_max_file_bytes,
      decap_max_total_bytes, decap_binary_policy, exceeds_total_cap_none]
    rw [if_neg hns] at h ⊢
    simp only [hstat] at h ⊢
    rw [if_neg hnfc, if_neg hntc, if_pos hbin, if_neg hnpol] at h
    rw [if_neg hnfc] at *
    rw [if_neg (by simp : ¬ (false : Bool) = true)]
    rw [if_pos hbin, if_neg hnpol]
    exact ih res h hres hacc
  | case8 f rest acc hns size hstat hnfc hntc hnbin e hread ih =>
    intro res h hres hacc
    simp only [walk_files] at h ⊢
    simp only [decap_include_hidden, decap_extensions, decap_include_spec, decap_exclude_spec,
      decap_gitignore_spec, decap_exclude_lockfiles, decap_max_file_bytes,
      decap_max_total_bytes, exceeds_total_cap_none]
    rw [if_neg hns] at h ⊢
    simp only [hstat] at h ⊢
    rw [if_neg hnfc, if_neg hntc, if_neg hnbin] at h
    rw [if_neg hnfc]
    rw [if_neg (by simp : ¬ (false : Bool) = true)]
    rw [if_neg hnbin]
    simp only [hread] at h ⊢
    exact ih res h hres hacc
  | case9 f rest acc hns size hstat hnfc hntc hnbin content hread ih =>
    intro res h hres hacc
    simp only [walk_files] at h ⊢
    simp only [decap_include_hidden, decap_extensions, decap_include_spec, decap_exclude_spec,
      decap_gitignore_spec, decap_exclude_lockfiles, decap_max_file_bytes,
      decap_max_total_bytes, exceeds_total_cap_none]
    rw [if_neg hns] at h ⊢
    simp only [hstat] at h ⊢
    rw [if_neg hnfc, if_neg hntc, if_neg hnbin] at h
    rw [if_neg hnfc]
    rw [if_neg (by simp : ¬ (false : Bool) = true)]
    rw [if_neg hnbin]
    simp only [hread] at h ⊢
    exact ih res h hres hacc

theorem walk_files_capped_below (ctx : WalkCtx) (raw : List RawFile) (acc : WalkResult) :
    ∀ resB resU : WalkResult, walk_files ctx raw acc = Except.ok resB →
      walk_files (decap_ctx ctx) raw acc = Except.ok resU →
      ∃ t, resU.files = resB.files ++ t := by
  induction raw, acc using walk_files.induct ctx with
  | case1 acc =>
    intro resB resU h hU
    simp only [walk_files, Except.ok.injEq] at h hU
    refine ⟨[], ?_⟩
    rw [← h, ← hU]
    simp
  | case2 f rest acc hskip ih =>
    intro resB resU h hU
    simp only [walk_files] at h hU
    simp only [decap_include_hidden, decap_extensions, decap_include_spec, decap_exclude_spec,
      decap_gitignore_spec, decap_exclude_lockfiles] at hU
    rw [if_pos hskip] at h hU
    exact ih resB resU h hU
  | case3 f rest acc hns e hstat ih =>
    intro resB resU h hU
    simp only [walk_files] at h hU
    simp only [decap_include_hidden, decap_extensions, decap_include_spec, decap_exclude_spec,
      decap_gitignore_spec, decap_exclude_lockfiles] at hU
    rw [if_neg hns] at h hU
    simp only [hstat] at h hU
    exact ih resB resU h hU
  | case4 f rest acc hns size hstat hfc ih =>
    intro resB resU h hU
    simp only [walk_files] at h hU
    simp only [decap_include_hidden, decap_extensions, decap_include_spec, decap_exclude_spec,
      decap_gitignore_spec, decap_exclude_lockfiles, decap_max_file_bytes] at hU
    rw [if_neg hns] at h hU
    simp only [hstat] at h hU
    rw [if_pos hfc] at h hU
    exact ih resB resU h hU
  | case5 f rest acc hns size hstat hnfc htc =>
    intro resB resU h hU
    simp only [walk_files] at h
    rw [if_neg hns] at h
    simp only [hstat] at h
    rw [if_neg hnfc, if_pos htc] at h
    simp only [Except.ok.injEq] at h
    obtain ⟨t, ht⟩ := walk_files_extend (decap_ctx ctx) (f :: rest) acc resU hU
    refine ⟨t, ?_⟩
    rw [ht, ← h]
  | case6 f rest acc hns size hstat hnfc hntc hbin hpol =>
    intro resB resU h hU
    simp only [walk_files] at h
    rw [if_neg hns] at h
    simp only [hstat] at h
    rw [if_neg hnfc, if_neg hntc, if_pos hbin, if_pos hpol] at h
    exact absurd h (by simp)
  | case7 f rest acc hns size hstat hnfc hntc hbin hnpol ih =>
    intro resB resU h hU
    simp only [walk_files] at h hU
    simp only [decap_include_hidden, decap_extensions, decap_include_spec, decap_exclude_spec,
      decap_gitignore_spec, decap_exclude_lockfiles, decap_max_file_bytes,
      decap_max_total_bytes, decap_binary_policy, exceeds_total_cap_none] at hU
    rw [if_neg hns] at h hU
    simp only [hstat] at h hU
    rw [if_neg hnfc, if_neg hntc, if_pos hbin, if_neg hnpol] at h
    rw [if_neg hnfc, if_neg (by simp : ¬ (false : Bool) = true), if_pos hbin, if_neg hnpol] at hU
    exact ih resB resU h hU
  | case8 f rest acc hns size hstat hnfc hntc hnbin e hread ih =>
    intro resB resU h hU
    simp only [walk_files] at h hU
    simp only [decap_include_hidden, decap_extensions, decap_include_spec, decap_exclude_spec,
      decap_gitignore_spec, decap_exclude_lockfiles, decap_max_file_bytes,
      decap_max_total_bytes, exceeds_total_cap_none] at hU
    rw [if_neg hns] at h hU
    simp only [hstat] at h hU
    rw [if_neg hnfc, if_neg hntc, if_neg hnbin] at h
    rw [if_neg hnfc, if_neg (by simp : ¬ (false : Bool) = true), if_neg hnbin] at hU
    simp only [hread] at h hU
    exact ih resB resU h hU
  | case9 f rest acc hns size hstat hnfc hntc hnbin content hread ih =>
    intro resB resU h hU
    simp only [walk_files] at h hU
    simp only [decap_include_hidden, decap_extensions, decap_include_spec, decap_exclude_spec,
      decap_gitignore_spec, decap_exclude_lockfiles, decap_max_file_bytes,
      decap_max_total_bytes, exceeds_total_cap_none] at hU
    rw [if_neg hns] at h hU
    simp only [hstat] at h hU
    rw [if_neg hnfc, if_neg hntc, if_neg hnbin] at h
    rw [if_neg hnfc, if_neg (by simp : ¬ (false : Bool) = true), if_neg hnbin] at hU
    simp only [hread] at h hU
    exact ih resB resU h hU

theorem walk_files_paths_sublist (ctx : WalkCtx) (raw : List RawFile) (acc : WalkResult) :
    ∀ res : WalkResult, walk_files ctx raw acc = Except.ok res →
      ∃ t, res.files = acc.files ++ t ∧
        List.Sublist (t.map FileEntry.path) (raw.map RawFile.relPath) := by
  induction raw, acc using walk_files.induct ctx with
  | case1 acc =>
    intro res h
    simp only [walk_files, Except.ok.injEq] at h
    exact ⟨[], by rw [← h]; simp, by simp⟩
  | case2 f rest acc hskip ih =>
    intro res h
    simp only [walk_files] at h
    rw [if_pos hskip] at h
    obtain ⟨t, ht, hsub⟩ := ih res h
    exact ⟨t, ht, hsub.trans (List.sublist_cons_self f.relPath _)⟩
  | case3 f rest acc hns e hstat ih =>
    intro res h
    simp only [walk_files] at h
    rw [if_neg hns] at h
    simp only [hstat] at h
    obtain ⟨t, ht, hsub⟩ := ih res h
    exact ⟨t, ht, hsub.trans (List.sublist_cons_self f.relPath _)⟩
  | case4 f rest acc hns size hstat hfc ih =>
    intro res h
    simp only [walk_files] at h
    rw [if_neg hns] at h
    simp only [hstat] at h
    rw [if_pos hfc] at h
    obtain ⟨t, ht, hsub⟩ := ih res h
    exact ⟨t, ht, hsub.trans (List.sublist_cons_self f.relPath _)⟩
  | case5 f rest acc hns size hstat hnfc htc =>
    intro res h
    simp only [walk_files] at h
    rw [if_neg hns] at h
    simp only [hstat] at h
    rw [if_neg hnfc, if_pos htc] at h
    simp only [Except.ok.injEq] at h
    exact ⟨[], by rw [← h]; simp, by simp⟩
  | case6 f rest acc hns size hstat hnfc hntc hbin hpol =>
    intro res h
    simp only [walk_files] at h
    rw [if_neg hns] at h
    simp only [hstat] at h
    rw [if_neg hnfc, if_neg hntc, if_pos hbin, if_pos hpol] at h
    exact absurd h (by simp)
  | case7 f rest acc hns size hstat hnfc hntc hbin hnpol ih =>
    intro res h
    simp only [walk_files] at h
    rw [if_neg hns] at h
    simp only [hstat] at h
    rw [if_neg hnfc, if_neg hntc, if_pos hbin, if_neg hnpol] at h
    obtain ⟨t, ht, hsub⟩ := ih res h
    exact ⟨t, ht, hsub.trans (List.sublist_cons_self f.relPath _)⟩
  | case8 f rest acc hns size hstat hnfc hntc hnbin e hread ih =>
    intro res h
    simp only [walk_files] at h
    rw [if_neg hns] at h
    simp only [hstat] at h
    rw [if_neg hnfc, if_neg hntc, if_neg hnbin] at h
    simp only [hread] at h
    obtain ⟨t, ht, hsub⟩ := ih res h
    exact ⟨t, ht, hsub.trans (List.sublist_cons_self f.relPath _)⟩
  | case9 f rest acc hns size hstat hnfc hntc hnbin content hread ih =>
    intro res h
    simp only [walk_files] at h
    rw [if_neg hns] at h
    simp only [hstat] at h
    rw [if_neg hnfc, if_neg hntc, if_neg hnbin] at h
    simp only [hread] at h
    obtain ⟨t, ht, hsub⟩ := ih res h
    refine ⟨{ path := f.relPath, size := size, content := content } :: t, by simp [ht], ?_⟩
    simpa using List.Sublist.cons₂ f.relPath hsub

theorem walk_files_ok_of_nonbinary (ctx : WalkCtx) (raw : List RawFile) (acc : WalkResult) :
    (∀ f ∈ raw, is_binary f.probe = false) →
    ∃ res : WalkResult, walk_files ctx raw acc = Except.ok res := by
  induction raw, acc using walk_files.induct ctx with
  | case1 acc =>
    intro _
    exact ⟨acc, rfl⟩
  | case2 f rest acc hskip ih =>
    intro hnb
    obtain ⟨res, hres⟩ := ih (fun g hg => hnb g (List.mem_cons_of_mem f hg))
    refine ⟨res, ?_⟩
    simp only [walk_files]
    rw [if_pos hskip]
    exact hres
  | case3 f rest acc hns e hstat ih =>
    intro hnb
    obtain ⟨res, hres⟩ := ih (fun g hg => hnb g (List.mem_cons_of_mem f hg))
    refine ⟨res, ?_⟩
    simp only [walk_files]
    rw [if_neg hns]
    simp only [hstat]
    exact hres
  | case4 f rest acc hns size hstat hfc ih =>
    intro hnb
    obtain ⟨res, hres⟩ := ih (fun g hg => hnb g (List.mem_cons_of_mem f hg))
    refine ⟨res, ?_⟩
    simp only [walk_files]
    rw [if_neg hns]
    simp only [hstat]
    rw [if_pos hfc]
    exact hres
  | case5 f rest acc hns size hstat hnfc htc =>
    intro _
    refine ⟨{ acc with warnings := acc.warnings ++ [total_limit_warning], truncated := true }, ?_⟩
    simp only [walk_files]
    rw [if_neg hns]
    simp only [hstat]
    rw [if_neg hnfc, if_pos htc]
  | case6 f rest acc hns size hstat hnfc hntc hbin hpol =>
    intro hnb
    have := hnb f (List.mem_cons_self f rest)
    rw [this] at hbin
    exact absurd hbin (by simp)
  | case7 f rest acc hns size hstat hnfc hntc hbin hnpol ih =>
    intro hnb
    have := hnb f (List.mem_cons_self f rest)
    rw [this] at hbin
    exact absurd hbin (by simp)
  | case8 f rest acc hns size hstat hnfc hntc hnbin e hread ih =>
    intro hnb
    obtain ⟨res, hres⟩ := ih (fun g hg => hnb g (List.mem_cons_of_mem f hg))
    refine ⟨res, ?_⟩
    simp only [walk_files]
    rw [if_neg hns]
    simp only [hstat]
    rw [if_neg hnfc, if_neg hntc, if_neg hnbin]
    simp only [hread]
    exact hres
  | case9 f rest acc hns size hstat hnfc hntc hnbin content hread ih =>
    intro hnb
    obtain ⟨res, hres⟩ := ih (fun g hg => hnb g (List.mem_cons_of_mem f hg))
    refine ⟨res, ?_⟩
    simp only [walk_files]
    rw [if_neg hns]
    simp only [hstat]
    rw [if_neg hnfc, if_neg hntc, if_neg hnbin]
    simp only [hread]
    exact hres

/-! Claim theorems. -/

/-- C1: Idempotent incremental indexing — running `index_directory` twice with
`force = false` over the same walk result (no filesystem changes, so relative
paths are unique and contents unchanged) makes the second call report
`indexed_count = 0` and `skipped_count` equal to the number of walked files:
the first call leaves every walked file's stored metadata hash equal to its
fresh SHA-256, so the second call skips every file. -/
theorem c1_second_incremental_run_skips_everything
    (sha256hex : String → String) (now1 now2 index_dir root : String)
    (walk : WalkResult) (st : IndexState)
    (hnodup : (walk.files.map FileEntry.path).Nodup) :
    (index_directory sha256hex now2 index_dir root false walk
        (index_directory sha256hex now1 index_dir root false walk st).2).1.indexed_count = 0
    ∧ (index_directory sha256hex now2 index_dir root false walk
        (index_directory sha256hex now1 index_dir root false walk st).2).1.skipped_count
      = walk.files.length := by
  have hrec := index_loop_records sha256hex now1 walk.files
      { indexed_count := 0, skipped_count := 0,
        metadata := load_metadata root st.metaFile, newDocs := [] } hnodup
  have hskip := index_loop_all_skipped sha256hex now2 walk.files
      { indexed_count := 0, skipped_count := 0,
        metadata := (index_loop sha256hex now1 false walk.files
          { indexed_count := 0, skipped_count := 0,
            metadata := load_metadata root st.metaFile, newDocs := [] }).metadata,
        newDocs := [] } hrec
  constructor
  · exact congrArg IndexLoopState.indexed_count hskip
  · have h2 : (index_loop sha256hex now2 false walk.files
        { indexed_count := 0, skipped_count := 0,
          metadata := (index_loop sha256hex now1 false walk.files
            { indexed_count := 0, skipped_count := 0,
              metadata := load_metadata root st.metaFile, newDocs := [] }).metadata,
          newDocs := [] }).skipped_count = 0 + walk.files.length :=
      congrArg IndexLoopState.skipped_count hskip
    rw [Nat.zero_add] at h2
    exact h2

theorem c1_second_incremental_run_skips_everything_witness :
    (index_directory (fun s => s) "t2" "idx" "/r" false
        { files := [{ path := "a.py", size := 5, content := "aaa" }], total_bytes := 5 }
        (index_directory (fun s => s) "t1" "idx" "/r" false
          { files := [{ path := "a.py", size := 5, content := "aaa" }], total_bytes := 5 }
          { docs := [], metaFile := .absent }).2).1.indexed_count = 0
    ∧ (index_directory (fun s => s) "t2" "idx" "/r" false
        { files := [{ path := "a.py", size := 5, content := "aaa" }], total_bytes := 5 }
        (index_directory (fun s => s) "t1" "idx" "/r" false
          { files := [{ path := "a.py", size := 5, content := "aaa" }], total_bytes := 5 }
          { docs := [], metaFile := .absent }).2).1.skipped_count = 1 :=
  c1_second_incremental_run_skips_everything (fun s => s) "t1" "t2" "idx" "/r"
    { files := [{ path := "a.py", size := 5, content := "aaa" }], total_bytes := 5 }
    { docs := [], metaFile := .absent } (by decide)

/-- C2: Force rebuild — `index_directory` with `force = true` first clears the
on-disk index and metadata wholesale, then indexes every walked file, so it
reports `indexed_count` equal to the walked file count and `skipped_count = 0`,
and its outcome is independent of the prior index state. -/
theorem c2_force_rebuild_indexes_everything
    (sha256hex : String → String) (now index_dir root : String)
    (walk : WalkResult) (st : IndexState) :
    (index_directory sha256hex now index_dir root true walk st).1.indexed_count
      = walk.files.length
    ∧ (index_directory sha256hex now index_dir root true walk st).1.skipped_count = 0
    ∧ index_directory sha256hex now index_dir root true walk st
      = index_directory sha256hex now index_dir root true walk clear_state := by
  refine ⟨?_, ?_, rfl⟩
  · have h : (index_loop sha256hex now true walk.files
        { indexed_count := 0, skipped_count := 0,
          metadata := load_metadata root clear_state.metaFile, newDocs := [] }).indexed_count
        = 0 + walk.files.length :=
      index_loop_force_indexed sha256hex now walk.files _
    rw [Nat.zero_add] at h
    exact h
  · exact index_loop_force_skipped sha256hex now walk.files
      { indexed_count := 0, skipped_count := 0,
        metadata := load_metadata root clear_state.metaFile, newDocs := [] }

/-- C7: Metadata corruption tolerance — loading the metadata file when it is
absent, unreadable, or not valid JSON yields the empty-files structure with
the root recorded, without raising, and an index build over such a state
behaves exactly as if no prior metadata existed. -/
theorem c7_metadata_corruption_treated_as_empty
    (root : String) (st : MetaFileState)
    (h : st = .absent ∨ st = .unreadable ∨ st = .invalidJson) :
    load_metadata root st = { root := root, files := [] }
    ∧ ∀ (sha256hex : String → String) (now index_dir : String) (force : Bool)
        (walk : WalkResult) (docs : List IndexDoc),
        index_directory sha256hex now index_dir root force walk
            { docs := docs, metaFile := st }
          = index_directory sha256hex now index_dir root force walk
            { docs := docs, metaFile := .absent } := by
  rcases h with rfl | rfl | rfl <;>
    exact ⟨rfl, fun sha256hex now index_dir force walk docs => by cases force <;> rfl⟩

theorem c7_metadata_corruption_treated_as_empty_witness :
    load_metadata "/r" .invalidJson = { root := "/r", files := [] }
    ∧ index_directory (fun s => s) "t" "idx" "/r" false
        { files := [{ path := "a.py", size := 5, content := "aaa" }], total_bytes := 5 }
        { docs := [], metaFile := .invalidJson }
      = index_directory (fun s => s) "t" "idx" "/r" false
        { files := [{ path := "a.py", size := 5, content := "aaa" }], total_bytes := 5 }
        { docs := [], metaFile := .absent } :=
  ⟨(c7_metadata_corruption_treated_as_empty "/r" .invalidJson (Or.inr (Or.inr rfl))).1,
   (c7_metadata_corruption_treated_as_empty "/r" .invalidJson (Or.inr (Or.inr rfl))).2
     (fun s => s) "t" "idx" false
     { files := [{ path := "a.py", size := 5, content := "aaa" }], total_bytes := 5 } []⟩

/-- C8 counterexample: the metadata file inside an index directory is named
`rlm_metadata.json` (indexer.py:277,287), not `metadata.json` as the claim
states. -/
theorem c8_counterexample_metadata_file_name :
    ¬ (metadata_file_name = "metadata.json") := by decide

/-- C8 (amended): the on-disk index for a root lives at
`<index_dir>/<first 16 hex chars of sha256(resolved root)>/`, the metadata
file inside it is named `rlm_metadata.json`, and two roots whose 16-character
hash prefixes differ never share an index directory. -/
theorem c8_amended_layout_and_root_isolation
    (sha256hex : String → String) (index_dir rootA rootB now : String)
    (force : Bool) (walk : WalkResult) (st : IndexState)
    (hdist : str_take (sha256hex rootA) 16 ≠ str_take (sha256hex rootB) 16) :
    (index_directory sha256hex now index_dir rootA force walk st).1.index_path
        = index_dir ++ "/" ++ str_take (sha256hex rootA) 16
    ∧ metadata_path (get_index_path sha256hex index_dir rootA)
        = index_dir ++ "/" ++ str_take (sha256hex rootA) 16 ++ "/" ++ "rlm_metadata.json"
    ∧ get_index_path sha256hex index_dir rootA ≠ get_index_path sha256hex index_dir rootB := by
  refine ⟨rfl, rfl, ?_⟩
  intro heq
  apply hdist
  have hdata := congrArg String.data heq
  simp only [get_index_path, String.data_append] at hdata
  have hcancel := List.append_cancel_left hdata
  exact congrArg String.mk hcancel

theorem c8_amended_layout_and_root_isolation_witness :
    (index_directory (fun s => s) "t" "idx" "/rootA" false {} { docs := [], metaFile := .absent }).1.index_path
        = "idx" ++ "/" ++ str_take ((fun s => s) "/rootA") 16
    ∧ metadata_path (get_index_path (fun s => s) "idx" "/rootA")
        = "idx" ++ "/" ++ str_take ((fun s => s) "/rootA") 16 ++ "/" ++ "rlm_metadata.json"
    ∧ get_index_path (fun s => s) "idx" "/rootA" ≠ get_index_path (fun s => s) "idx" "/rootB" :=
  c8_amended_layout_and_root_isolation (fun s => s) "idx" "/rootA" "/rootB" "t" false {}
    { docs := [], metaFile := .absent } (by decide)

theorem index_loop_ids (sha256hex : String → String) (now : String) (force : Bool) :
    ∀ (files : List FileEntry) (s : IndexLoopState),
      s.newDocs.length = s.indexed_count →
      (∀ i (h : i < s.newDocs.length), (s.newDocs.get ⟨i, h⟩).doc_id = format_doc_id (i + 1)) →
      (index_loop sha256hex now force files s).newDocs.length
        = (index_loop sha256hex now force files s).indexed_count
      ∧ ∀ i (h : i < (index_loop sha256hex now force files s).newDocs.length),
          ((index_loop sha256hex now force files s).newDocs.get ⟨i, h⟩).doc_id
            = format_doc_id (i + 1)
  | [], s, hlen, hids => ⟨hlen, hids⟩
  | fe :: rest, s, hlen, hids => by
    by_cases hc : (!force && (match lookup_meta s.metadata.files fe.path with
                  | some fm => decide (fm.sha256 = sha256hex fe.content)
                  | none => false)) = true
    · have heq : index_loop sha256hex now force (fe :: rest) s
          = index_loop sha256hex now force rest
            { s with skipped_count := s.skipped_count + 1 } := by
        simp only [index_loop]
        rw [if_pos hc]
      rw [heq]
      exact index_loop_ids sha256hex now force rest
        { s with skipped_count := s.skipped_count + 1 } hlen hids
    · have heq : index_loop sha256hex now force (fe :: rest) s
          = index_loop sha256hex now force rest
            { indexed_count := s.indexed_count + 1, skipped_count := s.skipped_count,
              metadata := { s.metadata with
                            files := update_meta s.metadata.files fe.path
                              { sha256 := sha256hex fe.content, indexed_at := now } },
              newDocs := s.newDocs ++
                [{ path := fe.path, path_stem := path_stem fe.path, content := fe.content,
                   language := language_from_path fe.path,
                   doc_id := format_doc_id (s.indexed_count + 1),
                   sha256 := sha256hex fe.content, bytes_size := fe.size }] } := by
        simp only [index_loop]
        rw [if_neg hc]
      rw [heq]
      refine index_loop_ids sha256hex now force rest _ ?_ ?_
      · show (s.newDocs ++
            [({ path := fe.path, path_stem := path_stem fe.path, content := fe.content,
                language := language_from_path fe.path,
                doc_id := format_doc_id (s.indexed_count + 1),
                sha256 := sha256hex fe.content, bytes_size := fe.size } : IndexDoc)]).length
          = s.indexed_count + 1
        rw [List.length_append, hlen]
        rfl
      · intro i h
        show ((s.newDocs ++
            [({ path := fe.path, path_stem := path_stem fe.path, content := fe.content,
                language := language_from_path fe.path,
                doc_id := format_doc_id (s.indexed_count + 1),
                sha256 := sha256hex fe.content, bytes_size := fe.size } : IndexDoc)]).get
              ⟨i, h⟩).doc_id
          = format_doc_id (i + 1)
        rw [List.get_eq_getElem]
        by_cases hi : i < s.newDocs.length
        · rw [List.getElem_append_left hi]
          have hid := hids i hi
          rw [List.get_eq_getElem] at hid
          exact hid
        · have hieq : i = s.newDocs.length := by
            have hlt : i < s.newDocs.length + 1 := by
              have h2 := h
              rw [List.length_append] at h2
              simpa using h2
            omega
          rw [List.getElem_concat_length _ _ _ hieq]
          rw [← hlen, hieq]

/-- C9: Doc-id strings restart per call — every `index_directory` call assigns
`doc_id` values `doc-<n>` with `n` counting only the documents newly added in
that call, starting at 1 (skipped files receive no document); consequently two
non-forced calls that each add at least one document to the same index can
leave two distinct stored documents both carrying `doc-0001`. -/
theorem c9_doc_ids_restart_per_call_and_collide :
    (∀ (sha256hex : String → String) (now : String) (force : Bool)
        (files : List FileEntry) (md : Metadata),
      (index_loop sha256hex now force files
          { indexed_count := 0, skipped_count := 0, metadata := md, newDocs := [] }).newDocs.length
        = (index_loop sha256hex now force files
          { indexed_count := 0, skipped_count := 0, metadata := md, newDocs := [] }).indexed_count
      ∧ ∀ i (h : i < (index_loop sha256hex now force files
            { indexed_count := 0, skipped_count := 0, metadata := md, newDocs := [] }).newDocs.length),
          ((index_loop sha256hex now force files
            { indexed_count := 0, skipped_count := 0, metadata := md, newDocs := [] }).newDocs.get
              ⟨i, h⟩).doc_id = format_doc_id (i + 1))
    ∧ format_doc_id 1 = "doc-0001"
    ∧ ((index_directory (fun s => s) "t1" "idx" "/r" false
          { files := [{ path := "a.py", size := 1, content := "x" }], total_bytes := 1 }
          { docs := [], metaFile := .absent }).1.indexed_count = 1
      ∧ (index_directory (fun s => s) "t2" "idx" "/r" false
          { files := [{ path := "a.py", size := 1, content := "x" },
                      { path := "b.py", size := 1, content := "y" }], total_bytes := 2 }
          (index_directory (fun s => s) "t1" "idx" "/r" false
            { files := [{ path := "a.py", size := 1, content := "x" }], total_bytes := 1 }
            { docs := [], metaFile := .absent }).2).1.indexed_count = 1
      ∧ ((index_directory (fun s => s) "t2" "idx" "/r" false
          { files := [{ path := "a.py", size := 1, content := "x" },
                      { path := "b.py", size := 1, content := "y" }], total_bytes := 2 }
          (index_directory (fun s => s) "t1" "idx" "/r" false
            { files := [{ path := "a.py", size := 1, content := "x" }], total_bytes := 1 }
            { docs := [], metaFile := .absent }).2).2.docs.map IndexDoc.doc_id
        = ["doc-0001", "doc-0001"])
      ∧ ((index_directory (fun s => s) "t2" "idx" "/r" false
          { files := [{ path := "a.py", size := 1, content := "x" },
                      { path := "b.py", size := 1, content := "y" }], total_bytes := 2 }
          (index_directory (fun s => s) "t1" "idx" "/r" false
            { files := [{ path := "a.py", size := 1, content := "x" }], total_bytes := 1 }
            { docs := [], metaFile := .absent }).2).2.docs.map IndexDoc.path
        = ["a.py", "b.py"])) := by
  refine ⟨?_, by decide, by decide, by decide, by decide, by decide⟩
  intro sha256hex now force files md
  exact index_loop_ids sha256hex now force files
    { indexed_count := 0, skipped_count := 0, metadata := md, newDocs := [] }
    rfl (fun i h => absurd h (Nat.not_lt_zero i))

theorem c9_doc_ids_restart_per_call_and_collide_witness :
    (index_loop (fun s => s) "t" false [{ path := "a.py", size := 1, content := "x" }]
        { indexed_count := 0, skipped_count := 0, metadata := { root := "/r", files := [] },
          newDocs := [] }).newDocs.length
      = (index_loop (fun s => s) "t" false [{ path := "a.py", size := 1, content := "x" }]
        { indexed_count := 0, skipped_count := 0, metadata := { root := "/r", files := [] },
          newDocs := [] }).indexed_count
    ∧ ((index_loop (fun s => s) "t" false [{ path := "a.py", size := 1, content := "x" }]
        { indexed_count := 0, skipped_count := 0, metadata := { root := "/r", files := [] },
          newDocs := [] }).newDocs.get ⟨0, by decide⟩).doc_id = format_doc_id 1 :=
  ⟨(c9_doc_ids_restart_per_call_and_collide.1 (fun s => s) "t" false
      [{ path := "a.py", size := 1, content := "x" }] { root := "/r", files := [] }).1,
   (c9_doc_ids_restart_per_call_and_collide.1 (fun s => s) "t" false
      [{ path := "a.py", size := 1, content := "x" }] { root := "/r", files := [] }).2
      0 (by decide)⟩

theorem pairwise_lt_of_sorted_nodup (l : List FileEntry)
    (hn : (l.map FileEntry.path).Nodup)
    (hs : l.Pairwise (fun a b => a.path ≤ b.path)) :
    l.Pairwise (fun a b => a.path < b.path) := by
  have hne : l.Pairwise (fun a b => a.path ≠ b.path) := by
    rw [List.Nodup, List.pairwise_map] at hn
    exact hn
  exact (hs.and hne).imp (fun h => lt_of_le_of_ne h.1 h.2)

/-- C6: Deterministic ordered output — for a fixed traversal (unique relative
paths, as one filesystem walk yields) and fixed options, a successful
`collect_directory` returns its files in strictly increasing POSIX
relative-path order, and re-running it on the same inputs returns the same
result (the embedding is a pure function of the traversal and options). -/
theorem c6_collect_directory_sorted_and_deterministic
    (build_spec : List String → String → Bool) (gitignore_file : Option (List String))
    (raw : List RawFile) (opts : WalkOptions) (res : WalkResult)
    (hnodup : (raw.map RawFile.relPath).Nodup)
    (hok : collect_directory build_spec gitignore_file raw opts = Except.ok res) :
    res.files.Pairwise (fun a b => a.path < b.path)
    ∧ collect_directory build_spec gitignore_file raw opts
      = collect_directory build_spec gitignore_file raw opts := by
  refine ⟨?_, rfl⟩
  rw [collect_directory] at hok
  cases hwf : walk_files (mk_walk_ctx opts build_spec gitignore_file) raw {} with
  | error e =>
    rw [hwf] at hok
    exact absurd hok (by simp [Except.map])
  | ok acc =>
    rw [hwf] at hok
    simp only [Except.map, Except.ok.injEq] at hok
    obtain ⟨t, ht, hsub⟩ := walk_files_paths_sublist
      (mk_walk_ctx opts build_spec gitignore_file) raw {} acc hwf
    have hacct : acc.files = t := by
      rw [ht]
      rfl
    have hnd_acc : (acc.files.map FileEntry.path).Nodup := by
      rw [hacct]
      exact hsub.nodup hnodup
    have hnd_sorted : ((sort_by_path acc.files).map FileEntry.path).Nodup := by
      rw [((sort_by_path_perm acc.files).map FileEntry.path).nodup_iff]
      exact hnd_acc
    have hsorted := sort_by_path_sorted acc.files
    have := pairwise_lt_of_sorted_nodup (sort_by_path acc.files) hnd_sorted hsorted
    rw [← hok]
    exact this

theorem c6_collect_directory_sorted_and_deterministic_witness :
    ({ files := [{ path := "a.py", size := 5, content := "aaaaa" },
                 { path := "b.md", size := 3, content := "bbb" }],
       warnings := [], truncated := false, total_bytes := 8 } : WalkResult).files.Pairwise
        (fun a b => a.path < b.path)
    ∧ collect_directory (fun _ _ => false) none
        [{ relPath := "b.md", name := "b.md", stat := .ok 3, probe := some [65],
           readText := .ok "bbb" },
         { relPath := "a.py", name := "a.py", stat := .ok 5, probe := some [66],
           readText := .ok "aaaaa" }] {}
      = collect_directory (fun _ _ => false) none
        [{ relPath := "b.md", name := "b.md", stat := .ok 3, probe := some [65],
           readText := .ok "bbb" },
         { relPath := "a.py", name := "a.py", stat := .ok 5, probe := some [66],
           readText := .ok "aaaaa" }] {} :=
  c6_collect_directory_sorted_and_deterministic (fun _ _ => false) none
    [{ relPath := "b.md", name := "b.md", stat := .ok 3, probe := some [65],
       readText := .ok "bbb" },
     { relPath := "a.py", name := "a.py", stat := .ok 5, probe := some [66],
       readText := .ok "aaaaa" }] {}
    { files := [{ path := "a.py", size := 5, content := "aaaaa" },
                { path := "b.md", size := 3, content := "bbb" }],
      warnings := [], truncated := false, total_bytes := 8 }
    (by decide) rfl

/-- C3: Byte budget is a hard global cap — when `max_total_bytes` is set below
the combined size of all files an uncapped run would collect, a successful
capped `collect_directory` reports `truncated = true`, emits at least one
warning, keeps the sum of collected sizes within the cap, and returns only
files the uncapped run would also have collected (the walk stopped at the
first file whose addition would exceed the cap, so the remainder was never
examined). -/
theorem c3_total_byte_cap_is_hard
    (build_spec : List String → String → Bool) (gitignore_file : Option (List String))
    (raw : List RawFile) (opts : WalkOptions) (B : Nat) (res res0 : WalkResult)
    (hB : opts.max_total_bytes = some B)
    (h0 : collect_directory build_spec gitignore_file raw
        { opts with max_total_bytes := none } = Except.ok res0)
    (hlt : B < sum_sizes res0.files)
    (hok : collect_directory build_spec gitignore_file raw opts = Except.ok res) :
    res.truncated = true
    ∧ res.warnings ≠ []
    ∧ sum_sizes res.files ≤ B
    ∧ ∀ e ∈ res.files, e ∈ res0.files := by
  rw [collect_directory] at hok h0
  cases hwB : walk_files (mk_walk_ctx opts build_spec gitignore_file) raw {} with
  | error e =>
    rw [hwB] at hok
    exact absurd hok (by simp [Except.map])
  | ok accB =>
    rw [hwB] at hok
    simp only [Except.map, Except.ok.injEq] at hok
    have hdec : mk_walk_ctx { opts with max_total_bytes := none } build_spec gitignore_file
        = decap_ctx (mk_walk_ctx opts build_spec gitignore_file) := rfl
    rw [hdec] at h0
    cases hwU : walk_files (decap_ctx (mk_walk_ctx opts build_spec gitignore_file)) raw {} with
    | error e =>
      rw [hwU] at h0
      exact absurd h0 (by simp [Except.map])
    | ok accU =>
      rw [hwU] at h0
      simp only [Except.map, Except.ok.injEq] at h0
      have hBctx : (mk_walk_ctx opts build_spec gitignore_file).opts.max_total_bytes
          = some B := hB
      have hinv := walk_files_total_inv (mk_walk_ctx opts build_spec gitignore_file) B hBctx
        raw {} accB hwB rfl (Nat.zero_le B)
      have hinv2 := hinv.2
      have hsumB : sum_sizes res.files ≤ B := by
        rw [← hok]
        show sum_sizes (sort_by_path accB.files) ≤ B
        rw [sum_sizes_perm (sort_by_path_perm accB.files), ← hinv.1]
        exact hinv2
      have htrunc : accB.truncated = true := by
        by_contra hf
        have hf' : accB.truncated = false := by
          cases hcase : accB.truncated
          · rfl
          · exact absurd hcase hf
        have hsame := walk_files_decap (mk_walk_ctx opts build_spec gitignore_file)
          raw {} accB hwB hf' rfl
        rw [hwU] at hsame
        simp only [Except.ok.injEq] at hsame
        have hs : sum_sizes res0.files = sum_sizes accB.files := by
          rw [← h0]
          show sum_sizes (sort_by_path accU.files) = sum_sizes accB.files
          rw [sum_sizes_perm (sort_by_path_perm accU.files), hsame]
        rw [hs, ← hinv.1] at hlt
        omega
      refine ⟨?_, ?_, hsumB, ?_⟩
      · rw [← hok]
        exact htrunc
      · have hw := walk_files_trunc_warning (mk_walk_ctx opts build_spec gitignore_file)
          raw {} accB hwB htrunc
        rcases hw with hcontra | hmem
        · exact absurd hcontra (by simp)
        · rw [← hok]
          show accB.warnings ≠ []
          exact List.ne_nil_of_mem hmem
      · obtain ⟨t, htU⟩ := walk_files_capped_below (mk_walk_ctx opts build_spec gitignore_file)
          raw {} accB accU hwB hwU
        intro x hx
        rw [← hok] at hx
        have hx1 : x ∈ accB.files := (sort_by_path_perm accB.files).mem_iff.mp hx
        have hx2 : x ∈ accU.files := by
          rw [htU]
          exact List.mem_append_left t hx1
        rw [← h0]
        show x ∈ sort_by_path accU.files
        exact (sort_by_path_perm accU.files).mem_iff.mpr hx2

theorem c3_total_byte_cap_is_hard_witness :
    ({ files := [{ path := "a.py", size := 30, content := "aa" }],
       warnings := ["Total byte limit reached; remaining files skipped."],
       truncated := true, total_bytes := 30 } : WalkResult).truncated = true
    ∧ ({ files := [{ path := "a.py", size := 30, content := "aa" }],
         warnings := ["Total byte limit reached; remaining files skipped."],
         truncated := true, total_bytes := 30 } : WalkResult).warnings ≠ []
    ∧ sum_sizes
        ({ files := [{ path := "a.py", size := 30, content := "aa" }],
           warnings := ["Total byte limit reached; remaining files skipped."],
           truncated := true, total_bytes := 30 } : WalkResult).files ≤ 40
    ∧ ∀ e ∈ ({ files := [{ path := "a.py", size := 30, content := "aa" }],
               warnings := ["Total byte limit reached; remaining files skipped."],
               truncated := true, total_bytes := 30 } : WalkResult).files,
        e ∈ ({ files := [{ path := "a.py", size := 30, content := "aa" },
                         { path := "b.py", size := 30, content := "bb" }],
               warnings := [], truncated := false, total_bytes := 60 } : WalkResult).files :=
  c3_total_byte_cap_is_hard (fun _ _ => false) none
    [{ relPath := "a.py", name := "a.py", stat := .ok 30, probe := some [65],
       readText := .ok "aa" },
     { relPath := "b.py", name := "b.py", stat := .ok 30, probe := some [66],
       readText := .ok "bb" }]
    { max_total_bytes := some 40 } 40
    { files := [{ path := "a.py", size := 30, content := "aa" }],
      warnings := ["Total byte limit reached; remaining files skipped."],
      truncated := true, total_bytes := 30 }
    { files := [{ path := "a.py", size := 30, content := "aa" },
                { path := "b.py", size := 30, content := "bb" }],
      warnings := [], truncated := false, total_bytes := 60 }
    rfl rfl (by decide) rfl

/-- C10: Binary probe is total and treats empty or unreadable-during-probe
files as text — `_is_binary` returns `false` when the probe read raised an OS
error or the first chunk is empty, and consequently a walk over files whose
probes are all empty or unreadable never raises an `InputError`, even under
`binary_policy = "error"`; such files proceed to the text-read step. -/
theorem c10_binary_probe_empty_or_unreadable_is_text :
    is_binary none = false
    ∧ is_binary (some []) = false
    ∧ ∀ (build_spec : List String → String → Bool) (gitignore_file : Option (List String))
        (raw : List RawFile) (opts : WalkOptions),
        opts.binary_policy = "error" →
        (∀ f ∈ raw, f.probe = none ∨ f.probe = some []) →
        ∃ res, collect_directory build_spec gitignore_file raw opts = Except.ok res := by
  refine ⟨rfl, rfl, ?_⟩
  intro build_spec gitignore_file raw opts _ hprobe
  have hnb : ∀ f ∈ raw, is_binary f.probe = false := by
    intro f hf
    rcases hprobe f hf with h | h <;> rw [h] <;> rfl
  obtain ⟨acc, hacc⟩ := walk_files_ok_of_nonbinary
    (mk_walk_ctx opts build_spec gitignore_file) raw {} hnb
  refine ⟨{ acc with files := sort_by_path acc.files }, ?_⟩
  rw [collect_directory, hacc]
  rfl

theorem c10_binary_probe_empty_or_unreadable_is_text_witness :
    ∃ res, collect_directory (fun _ _ => false) none
        [{ relPath := "empty.py", name := "empty.py", stat := .ok 0, probe := some [],
           readText := .ok "" }]
        { binary_policy := "error" }
      = Except.ok res :=
  c10_binary_probe_empty_or_unreadable_is_text.2.2 (fun _ _ => false) none
    [{ relPath := "empty.py", name := "empty.py", stat := .ok 0, probe := some [],
       readText := .ok "" }]
    { binary_policy := "error" } rfl
    (by
      intro f hf
      rw [List.mem_singleton] at hf
      subst hf
      exact Or.inr rfl)

theorem query_parts_foldl_id (query : String) :
    ∀ (boosts : List (String × String)) (acc : List String),
      (∀ p ∈ boosts, p.1 ≠ "content" ∧ p.1 ≠ "path" ∧ p.1 ≠ "path_stem") →
      boosts.foldl (fun acc p =>
        if p.1 = "content" then acc ++ ["content:" ++ query ++ "^" ++ p.2]
        else if p.1 = "path" then acc ++ ["path:" ++ query ++ "^" ++ p.2]
        else if p.1 = "path_stem" then acc ++ ["path_stem:" ++ query ++ "^" ++ p.2]
        else acc) acc = acc
  | [], _, _ => rfl
  | p :: rest, acc, h => by
    obtain ⟨h1, h2, h3⟩ := h p (List.mem_cons_self p rest)
    simp only [List.foldl_cons]
    rw [if_neg h1, if_neg h2, if_neg h3]
    exact query_parts_foldl_id query rest acc (fun q hq => h q (List.mem_cons_of_mem p hq))

/-- C5: Empty boost map edge case — when the configured boost map contains
none of the three searchable fields, the per-field query parts are empty, the
combined query is the empty string, and (under the engine's interface
contract from the spec that an empty query matches nothing) `search` returns
an empty result list rather than raising. -/
theorem c5_no_searchable_boosts_matches_nothing
    (engine : String → Nat → List (ℚ × IndexDoc)) (boosts : List (String × String))
    (query : String) (limit : Nat) (language : Option String)
    (hfields : ∀ p ∈ boosts, p.1 ≠ "content" ∧ p.1 ≠ "path" ∧ p.1 ≠ "path_stem")
    (hengine : engine "" limit = []) :
    query_parts query boosts = []
    ∧ combined_query query boosts = ""
    ∧ rlm_search engine boosts query limit language = [] := by
  have hqp : query_parts query boosts = [] := query_parts_foldl_id query boosts [] hfields
  have hcq : combined_query query boosts = "" := by
    rw [combined_query, hqp]
    rfl
  refine ⟨hqp, hcq, ?_⟩
  rw [rlm_search, hcq, hengine]
  rfl

theorem c5_no_searchable_boosts_matches_nothing_witness :
    query_parts "hello" [("language", "1.0")] = []
    ∧ combined_query "hello" [("language", "1.0")] = ""
    ∧ rlm_search (fun _ _ => []) [("language", "1.0")] "hello" 5 none = [] :=
  c5_no_searchable_boosts_matches_nothing (fun _ _ => []) [("language", "1.0")]
    "hello" 5 none (by decide) rfl

/-- C4: Language filter is applied after truncation to `limit` — the engine
returns the top `limit` hits of the relevance-ranked matches, the language
filter then drops hits from that truncated list, and the survivors keep the
best-relevance-first order; consequently there is a run where fewer than
`limit` results come back even though at least `limit` matching documents of
the requested language exist among the ranked matches, and the result differs
from what filtering before truncation would produce. -/
theorem c4_language_filter_after_truncation
    (engine : String → Nat → List (ℚ × IndexDoc)) (boosts : List (String × String))
    (query : String) (limit : Nat) (language : Option String)
    (ranked : List (ℚ × IndexDoc))
    (heng : engine (combined_query query boosts) limit = ranked.take limit)
    (hsorted : ranked.Pairwise (fun a b => b.1 ≤ a.1)) :
    (rlm_search engine boosts query limit language).Pairwise (fun a b => b.score ≤ a.score)
    ∧ rlm_search engine boosts query limit language
      = ((ranked.take limit).filter
          (fun hit => lang_filter_keep language hit.2.language)).map mk_search_result
    ∧ ∃ (ranked₀ : List (ℚ × IndexDoc)) (engine₀ : String → Nat → List (ℚ × IndexDoc))
        (boosts₀ : List (String × String)) (query₀ : String) (limit₀ : Nat) (lang₀ : String),
        engine₀ (combined_query query₀ boosts₀) limit₀ = ranked₀.take limit₀
        ∧ ranked₀.Pairwise (fun a b => b.1 ≤ a.1)
        ∧ limit₀ ≤ (ranked₀.filter (fun hit => hit.2.language = lang₀)).length
        ∧ (rlm_search engine₀ boosts₀ query₀ limit₀ (some lang₀)).length < limit₀
        ∧ rlm_search engine₀ boosts₀ query₀ limit₀ (some lang₀)
          ≠ ((ranked₀.filter
              (fun hit => lang_filter_keep (some lang₀) hit.2.language)).take limit₀).map
                mk_search_result := by
  have h1 : rlm_search engine boosts query limit language
      = ((ranked.take limit).filter
          (fun hit => lang_filter_keep language hit.2.language)).map mk_search_result := by
    rw [rlm_search, heng]
  refine ⟨?_, h1, ?_⟩
  · rw [h1]
    have hp : ((ranked.take limit).filter
        (fun hit => lang_filter_keep language hit.2.language)).Pairwise
          (fun a b => b.1 ≤ a.1) :=
      List.Pairwise.sublist (List.filter_sublist _)
        (List.Pairwise.sublist (List.take_sublist limit ranked) hsorted)
    exact List.pairwise_map.mpr hp
  · refine ⟨[(2, { path := "b.md", path_stem := "b", content := "hello world",
                   language := "markdown", doc_id := "doc-0002", sha256 := "h2",
                   bytes_size := 11 }),
             (1, { path := "a.py", path_stem := "a", content := "hello world",
                   language := "python", doc_id := "doc-0001", sha256 := "h1",
                   bytes_size := 11 })],
      fun _ lim => ([(2, { path := "b.md", path_stem := "b", content := "hello world",
                           language := "markdown", doc_id := "doc-0002", sha256 := "h2",
                           bytes_size := 11 }),
                     (1, { path := "a.py", path_stem := "a", content := "hello world",
                           language := "python", doc_id := "doc-0001", sha256 := "h1",
                           bytes_size := 11 })].take lim),
      [("content", "1.0")], "hello", 1, "python",
      rfl, by decide, by decide, by decide, by decide⟩

theorem c4_language_filter_after_truncation_witness :
    (rlm_search
        (fun _ lim => ([(2, { path := "b.md", path_stem := "b", content := "hello world",
                              language := "markdown", doc_id := "doc-0002", sha256 := "h2",
                              bytes_size := 11 }),
                        (1, { path := "a.py", path_stem := "a", content := "hello world",
                              language := "python", doc_id := "doc-0001", sha256 := "h1",
                              bytes_size := 11 })].take lim))
        [("content", "1.0")] "hello" 2 none).Pairwise (fun a b => b.score ≤ a.score) :=
  (c4_language_filter_after_truncation
    (fun _ lim => ([(2, { path := "b.md", path_stem := "b", content := "hello world",
                          language := "markdown", doc_id := "doc-0002", sha256 := "h2",
                          bytes_size := 11 }),
                    (1, { path := "a.py", path_stem := "a", content := "hello world",
                          language := "python", doc_id := "doc-0001", sha256 := "h1",
                          bytes_size := 11 })].take lim))
    [("content", "1.0")] "hello" 2 none
    [(2, { path := "b.md", path_stem := "b", content := "hello world",
           language := "markdown", doc_id := "doc-0002", sha256 := "h2",
           bytes_size := 11 }),
     (1, { path := "a.py", path_stem := "a", content := "hello world",
           language := "python", doc_id := "doc-0001", sha256 := "h1",
           bytes_size := 11 })]
    rfl (by decide)).1
